import Mathlib

/-!
Verification of the UV / melanoma data-wrangling pipeline
(`data_wrangling_script.py`).

The script is a batch pandas pipeline.  We embed it shallowly:

* dataframes become `List`s of rows (structures / tuples);
* float values become `ℚ` (the script only uses max, mean, comparisons);
* `pd.to_datetime` / `pd.to_numeric` with coercion are external parsers,
  so a raw cell arrives here already as an `Option` parse result;
* `groupby(key).agg` (pandas default `sort=True`) becomes: sort the
  deduplicated key list, then aggregate the rows matching each key;
* `idxmax` (first index attaining the maximum) becomes `firstMax`;
* `merge(..., how="inner")` becomes a nested-loop equi-join;
* a raised exception becomes `none` / is unrepresentable (total function).
-/

/-- A calendar date, as produced by `pd.to_datetime(...).dt.date`. -/
structure Date where
  year : Int
  month : Int
  day : Int
deriving DecidableEq, Repr

/-- Lexicographic order on dates (the order pandas sorts group keys by). -/
def dateLe (a b : Date) : Prop :=
  a.year < b.year ∨ (a.year = b.year ∧
    (a.month < b.month ∨ (a.month = b.month ∧ a.day ≤ b.day)))

/-- Strict lexicographic order on dates. -/
def dateLt (a b : Date) : Prop :=
  a.year < b.year ∨ (a.year = b.year ∧
    (a.month < b.month ∨ (a.month = b.month ∧ a.day < b.day)))

instance : DecidableRel dateLe := fun a b => by
  unfold dateLe; exact inferInstance

instance : DecidableRel dateLt := fun a b => by
  unfold dateLt; exact inferInstance

instance : IsTotal Date dateLe where
  total := by intro a b; unfold dateLe; omega

instance : IsTrans Date dateLe where
  trans := by intro a b c; unfold dateLe; omega

instance : IsAntisymm Date dateLe where
  antisymm := by
    intro a b h1 h2
    unfold dateLe at h1 h2
    cases a; cases b
    simp only [Date.mk.injEq]
    simp only at h1 h2
    omega

/-- Lexicographic order on (year, month) group keys. -/
def ymLe (a b : Int × Int) : Prop :=
  a.1 < b.1 ∨ (a.1 = b.1 ∧ a.2 ≤ b.2)

instance : DecidableRel ymLe := fun a b => by
  unfold ymLe; exact inferInstance

instance : IsTotal (Int × Int) ymLe where
  total := by intro a b; unfold ymLe; omega

instance : IsTrans (Int × Int) ymLe where
  trans := by intro a b c; unfold ymLe; omega

instance : IsAntisymm (Int × Int) ymLe where
  antisymm := by
    intro a b h1 h2
    unfold ymLe at h1 h2
    cases a; cases b
    simp only [Prod.mk.injEq]
    simp only at h1 h2
    omega

/-- Maximum of a list of rationals (`Series.max` on a nonempty group;
the `[]` case never arises for pandas groups, whose keys come from rows). -/
def maxQ : List ℚ → ℚ
  | [] => 0
  | x :: xs => xs.foldl max x

/-- Arithmetic mean of a list of rationals (`Series.mean`). -/
def meanQ (l : List ℚ) : ℚ := l.sum / (l.length : ℚ)

/-- Rows kept by `parse_uv_csv` after the external cell parsers ran:
`dropna()` keeps rows where both the timestamp and the UV value parsed,
then the range filter keeps `0 ≤ uv ≤ 25`.  The timestamp is then
projected to its calendar date.  (Decoding, header handling and the
cell parsers `pd.to_datetime` / `pd.to_numeric` are the excluded
collaborators; a row arrives as its pair of parse results.) -/
def parse_uv_csv (raw : List (Option Date × Option ℚ)) : List (Date × ℚ) :=
  (raw.filterMap (fun r =>
      match r with
      | (some d, some v) => some (d, v)
      | _ => none)).filter (fun r => 0 ≤ r.2 ∧ r.2 ≤ 25)

/-- `df.groupby("date", as_index=False)["uv"].max()`: group keys are the
distinct dates in sorted order; each key gets the max of its group. -/
def dailyMax (l : List (Date × ℚ)) : List (Date × ℚ) :=
  (List.insertionSort dateLe ((l.map Prod.fst).dedup)).map
    (fun d => (d, maxQ ((l.filter (fun r => r.1 = d)).map Prod.snd)))

/-- `monthly_mean_of_daily_max`: minute → daily max → monthly mean of the
daily maxima, grouping the daily table by the (year, month) derived from
each date. -/
def monthly_mean_of_daily_max (l : List (Date × ℚ)) :
    List ((Int × Int) × ℚ) :=
  let daily := dailyMax l
  (List.insertionSort ymLe
      ((daily.map (fun r => (r.1.year, r.1.month))).dedup)).map
    (fun ym => (ym, meanQ
      ((daily.filter (fun r => (r.1.year, r.1.month) = ym)).map Prod.snd)))

/-- One row of the concatenated monthly table `uv_monthly`
(`city, year, month, mean_daily_max_uvi`). -/
structure MRow where
  city : String
  year : Int
  month : Int
  value : ℚ
deriving DecidableEq, Repr

/-- The `uv_monthly` table built in `main`: one `monthly_mean_of_daily_max`
table per downloaded (city, period) file, tagged with the city and
concatenated. -/
def uv_monthly_rows
    (inputs : List (String × List (Option Date × Option ℚ))) : List MRow :=
  inputs.flatMap (fun ci =>
    (monthly_mean_of_daily_max (parse_uv_csv ci.2)).map
      (fun r => ⟨ci.1, r.1.1, r.1.2, r.2⟩))

/-- The climatology rows of one city: group `uv_monthly` rows of that city
by month (keys sorted, pandas `groupby` default) and average
`mean_daily_max_uvi` over the selected periods present. -/
def climForCity (rows : List MRow) (c : String) : List (Int × ℚ) :=
  (List.insertionSort (· ≤ ·)
      (((rows.filter (fun r => r.city = c)).map MRow.month).dedup)).map
    (fun m => (m, meanQ
      (((rows.filter (fun r => r.city = c)).filter
          (fun r => r.month = m)).map MRow.value)))

/-- The sorted list of distinct cities of the monthly table. -/
def climCities (rows : List MRow) : List String :=
  List.insertionSort (· ≤ ·) ((rows.map MRow.city).dedup)

/-- The full climatology table `clim` (`city, month, mean_daily_max_uvi_clim`),
keys in sorted (city, month) order as `groupby(["city","month"])` emits. -/
def climatology (rows : List MRow) : List (String × Int × ℚ) :=
  (climCities rows).flatMap
    (fun c => (climForCity rows c).map (fun mv => (c, mv.1, mv.2)))

/-- `annual` in `main`: per-city mean of that city's climatology values. -/
def annual_mean (rows : List MRow) (c : String) : ℚ :=
  meanQ ((climForCity rows c).map Prod.snd)

/-- `Series.idxmax` on a group, returning the row itself: the first row
(in table order) attaining the maximum value. -/
def firstMax : List (Int × ℚ) → Option (Int × ℚ)
  | [] => none
  | p :: rest =>
    match firstMax rest with
    | none => some p
    | some q => if p.2 < q.2 then some q else some p

/-- `peak` in `main`: the row of the city's climatology attaining the max
(first such row, via `idxmax`), giving `(peak_month, peak_uvi)`. -/
def peak (rows : List MRow) (c : String) : Option (Int × ℚ) :=
  firstMax (climForCity rows c)

/-- `norm` in `parse_uv_csv`: lowercase, keep only alphanumerics
(`re.sub(r"[^a-z0-9]+", "", str(s).lower())`). -/
def colNorm (s : String) : String :=
  ⟨(s.data.map Char.toLower).filter Char.isAlphanum⟩

/-- Python substring containment (`needle in hay`) on the character level. -/
def infixOfB (needle : List Char) : List Char → Bool
  | [] => needle.isEmpty
  | c :: rest => needle.isPrefixOf (c :: rest) || infixOfB needle rest

/-- `needle in hay` for strings. -/
def containsSub (needle hay : String) : Bool :=
  infixOfB needle.data hay.data

/-- Python `s.startswith(pre)`. -/
def startsWithB (pre s : String) : Bool :=
  pre.data.isPrefixOf s.data

/-- The prioritized normalized candidate names for the UV value column. -/
def uvCandidates : List String :=
  ["uvindex", "uv_index", "uv", "uvi", "uv1min", "uvindex1min",
   "uvindexminute"]

/-- The prioritized normalized candidate names for the timestamp column. -/
def timeCandidates : List String :=
  ["utctime", "utc", "timestamp", "datetime", "datetimeutc", "date_time",
   "datetimelocal", "date", "time", "datetimeaest", "datetimeaedt",
   "datetimeacst", "datetimeawst", "datetimeawdt", "datetimeacdt"]

/-- `inv[key]`: the dict `{norm(c): c}` is built in column order, so a
lookup returns the LAST column whose normalized name equals the key. -/
def invLookup (cols : List String) (key : String) : Option String :=
  (cols.filter (fun c => colNorm c = key)).getLast?

/-- The `for key in [...]: if key in inv` scan over the candidate list. -/
def findByCandidates : List String → List String → Option String
  | [], _ => none
  | k :: rest, cols =>
    match invLookup cols k with
    | some c => some c
    | none => findByCandidates rest cols

/-- UV column resolution: exact candidate scan, then fall back to the
first column whose normalized name STARTS WITH `"uv"`. -/
def uvColumn (cols : List String) : Option String :=
  match findByCandidates uvCandidates cols with
  | some c => some c
  | none => cols.find? (fun c => startsWithB "uv" (colNorm c))

/-- Time column resolution: exact candidate scan, then fall back to the
first column whose normalized name contains `"time"` or `"date"`. -/
def timeColumn (cols : List String) : Option String :=
  match findByCandidates timeCandidates cols with
  | some c => some c
  | none => cols.find? (fun c =>
      containsSub "time" (colNorm c) || containsSub "date" (colNorm c))

/-- Column resolution of `parse_uv_csv`; `none` is the raised
`ValueError` ("Could not locate UV or time columns"). -/
def resolveColumns (cols : List String) : Option (String × String) :=
  match uvColumn cols, timeColumn cols with
  | some u, some t => some (u, t)
  | _, _ => none

/-- The rate-column comprehension in `read_book7_filtered`: all column
headers containing both the fixed label and the year token of the chosen
standard (any `rate_standard` other than `"2025"` selects `"2001"`). -/
def rateColCandidates (cols : List String) (std : String) : List String :=
  if std = "2025" then
    cols.filter (fun c =>
      containsSub "Age-standardised rate" c && containsSub "2025" c)
  else
    cols.filter (fun c =>
      containsSub "Age-standardised rate" c && containsSub "2001" c)

/-- `rate_col[0]` guarded by `if not rate_col: raise RuntimeError(...)`:
`none` is the raised error, otherwise the first matching column. -/
def findRateCol (cols : List String) (std : String) : Option String :=
  (rateColCandidates cols std).head?

/-- One raw row of the `Table S7.1` sheet, restricted to the cells
`read_book7_filtered` reads.  `yearRaw`, `rate` and `count` carry the
`pd.to_numeric(..., errors="coerce")` parse results. -/
structure BRow where
  dataType : String
  site : String
  sex : String
  yearRaw : Option Int
  stateName : String
  rate : Option ℚ
  count : Option ℚ
deriving DecidableEq, Repr

/-- The fixed `NAME_TO_CODE` lookup table; `.map` yields NaN (`none`)
for unmapped names. -/
def NAME_TO_CODE : String → Option String
  | "New South Wales" => some "NSW"
  | "Victoria" => some "VIC"
  | "Queensland" => some "QLD"
  | "South Australia" => some "SA"
  | "Western Australia" => some "WA"
  | "Tasmania" => some "TAS"
  | "Northern Territory" => some "NT"
  | "Australian Capital Territory" => some "ACT"
  | _ => none

/-- One row of the `yearly` output table
(`state_code, state_name, year, asr_per_100k, count`). -/
structure SRec where
  state_code : Option String
  state_name : String
  year : Int
  asr_per_100k : Option ℚ
  count : Option ℚ
deriving DecidableEq, Repr

/-- The row filter of `read_book7_filtered`: the three fixed category
equalities, `Year` parsed and in `[2017, 2021]` (a non-parsing year makes
`between` evaluate to NA, which boolean masking treats as dropped), and
the `"Australia"` total row dropped. -/
def keepRow (b : BRow) : Bool :=
  (b.dataType = "Incidence" : Bool) &&
  (b.site = "Melanoma of the skin" : Bool) &&
  (b.sex = "Persons" : Bool) &&
  (match b.yearRaw with
   | some y => decide (2017 ≤ y) && decide (y ≤ 2021)
   | none => false) &&
  !(b.stateName = "Australia" : Bool)

/-- The column selection/renaming into a `yearly` record (`Year` is
`some` on every kept row, so the default is never used). -/
def toSRec (b : BRow) : SRec :=
  ⟨NAME_TO_CODE b.stateName, b.stateName, b.yearRaw.getD 0, b.rate, b.count⟩

/-- `sort_values(["state_code","year"])` key: missing codes (NaN) last,
then code, then year, lexicographically. -/
def sortKey (r : SRec) : Bool ×ₗ String ×ₗ Int :=
  toLex ((match r.state_code with | none => true | some _ => false),
    toLex ((match r.state_code with | none => "" | some s => s), r.year))

/-- Row order used to sort the `yearly` table. -/
def recLe (a b : SRec) : Prop := sortKey a ≤ sortKey b

instance : DecidableRel recLe := fun a b => by
  unfold recLe; exact inferInstance

instance : IsTotal SRec recLe where
  total := fun a b => le_total (sortKey a) (sortKey b)

instance : IsTrans SRec recLe where
  trans := fun _ _ _ hab hbc => le_trans hab hbc

/-- The `yearly` table of `read_book7_filtered`: filter, project, sort. -/
def read_book7_yearly (rows : List BRow) : List SRec :=
  List.insertionSort recLe ((rows.filter keepRow).map toSRec)

/-- One `uv_state` row as consumed by the scatter join (the final
projection keeps `state_code, state_name, annual_mean_uvi` from the
left side; `capital`, `peak_month`, `peak_uvi` are dropped there). -/
structure URow where
  state_code : String
  state_name : String
  annual_mean_uvi : ℚ
deriving DecidableEq, Repr

/-- One five-period summary row as consumed by the join
(`mean[["state_code","asr_2017_2021_mean","count_sum"]]`); the code is
`none` when the region name was unmapped. -/
structure RSum where
  state_code : Option String
  asr_2017_2021_mean : ℚ
  count_sum : ℚ
deriving DecidableEq, Repr

/-- `uv_state.merge(mean[...], on="state_code", how="inner")`: one output
row per (left, right) pair agreeing on the key.  pandas `merge` has no
cardinality check here (no `validate=`), so duplicates multiply pairwise
rather than raising. -/
def scatterJoin (left : List URow) (right : List RSum) :
    List (URow × RSum) :=
  left.flatMap (fun a =>
    (right.filter (fun b => b.state_code = some a.state_code)).map
      (fun b => (a, b)))

/-- The final scatter table
(`state_code, state_name, annual_mean_uvi, asr_2017_2021_mean, count_sum`). -/
def scatter (left : List URow) (right : List RSum) :
    List (String × String × ℚ × ℚ × ℚ) :=
  (scatterJoin left right).map (fun p =>
    (p.1.state_code, p.1.state_name, p.1.annual_mean_uvi,
     p.2.asr_2017_2021_mean, p.2.count_sum))

theorem foldl_max_eq_or_mem (xs : List ℚ) (x : ℚ) :
    xs.foldl max x = x ∨ xs.foldl max x ∈ xs := by
  induction xs generalizing x with
  | nil => exact Or.inl rfl
  | cons z zs ih =>
    simp only [List.foldl_cons]
    rcases ih (max x z) with h | h
    · rcases max_choice x z with hc | hc
      · exact Or.inl (h.trans hc)
      · refine Or.inr ?_
        rw [h, hc]
        exact List.mem_cons_self z zs
    · exact Or.inr (List.mem_cons_of_mem z h)

theorem self_le_foldl_max (xs : List ℚ) (x : ℚ) : x ≤ xs.foldl max x := by
  induction xs generalizing x with
  | nil => exact le_refl x
  | cons z zs ih =>
    simp only [List.foldl_cons]
    exact (le_max_left x z).trans (ih (max x z))

theorem le_foldl_max (xs : List ℚ) (x y : ℚ) (h : y = x ∨ y ∈ xs) :
    y ≤ xs.foldl max x := by
  induction xs generalizing x with
  | nil =>
    rcases h with h | h
    · exact le_of_eq h
    · cases h
  | cons z zs ih =>
    simp only [List.foldl_cons]
    rcases h with h | h
    · exact h.le.trans ((le_max_left x z).trans (self_le_foldl_max zs (max x z)))
    · rcases List.mem_cons.mp h with h | h
      · exact h.le.trans
          ((le_max_right x z).trans (self_le_foldl_max zs (max x z)))
      · exact ih (max x z) (Or.inr h)

theorem maxQ_mem {l : List ℚ} (h : l ≠ []) : maxQ l ∈ l := by
  cases l with
  | nil => exact absurd rfl h
  | cons x xs =>
    rcases foldl_max_eq_or_mem xs x with hm | hm
    · rw [maxQ, hm]; exact List.mem_cons_self x xs
    · exact List.mem_cons_of_mem x (by rw [maxQ]; exact hm)

theorem le_maxQ {l : List ℚ} {y : ℚ} (h : y ∈ l) : y ≤ maxQ l := by
  cases l with
  | nil => cases h
  | cons x xs =>
    rw [maxQ]
    rcases List.mem_cons.mp h with h | h
    · exact le_foldl_max xs x y (Or.inl h)
    · exact le_foldl_max xs x y (Or.inr h)

theorem maxQ_perm {l₁ l₂ : List ℚ} (p : l₁.Perm l₂) : maxQ l₁ = maxQ l₂ := by
  cases l₁ with
  | nil => rw [p.symm.eq_nil]
  | cons x xs =>
    have h₂ : l₂ ≠ [] := by
      intro h
      rw [h] at p
      exact List.cons_ne_nil x xs (List.Perm.eq_nil p)
    exact le_antisymm
      (le_maxQ (p.mem_iff.mp (maxQ_mem (List.cons_ne_nil x xs))))
      (le_maxQ (p.mem_iff.mpr (maxQ_mem h₂)))

theorem meanQ_perm {l₁ l₂ : List ℚ} (p : l₁.Perm l₂) : meanQ l₁ = meanQ l₂ := by
  unfold meanQ
  rw [p.sum_eq, p.length_eq]

theorem meanQ_bounds {l : List ℚ} {a b : ℚ} (hne : l ≠ [])
    (h : ∀ x ∈ l, a ≤ x ∧ x ≤ b) : a ≤ meanQ l ∧ meanQ l ≤ b := by
  have hlen : 0 < (l.length : ℚ) := by
    have := List.length_pos.mpr hne
    exact_mod_cast this
  have hub : l.sum ≤ (l.length : ℚ) * b := by
    have := List.sum_le_card_nsmul l b (fun x hx => (h x hx).2)
    rwa [nsmul_eq_mul] at this
  have hlb : (l.length : ℚ) * a ≤ l.sum := by
    have := List.card_nsmul_le_sum l a (fun x hx => (h x hx).1)
    rwa [nsmul_eq_mul] at this
  constructor
  · rw [meanQ, le_div_iff₀ hlen]
    calc a * (l.length : ℚ) = (l.length : ℚ) * a := mul_comm _ _
      _ ≤ l.sum := hlb
  · rw [meanQ, div_le_iff₀ hlen]
    calc l.sum ≤ (l.length : ℚ) * b := hub
      _ = b * (l.length : ℚ) := mul_comm _ _

/-- C1: for readings `[(d1,3.0),(d1,5.0),(d2,1.0)]` with `d1`, `d2` distinct
dates of the same month (listed in date order, the order the daily table is
emitted in), the daily-max table is `[(d1,5.0),(d2,1.0)]` and the monthly
mean for that month is exactly `3.0`. -/
theorem uv_monthly_scenario (d1 d2 : Date) (hlt : dateLt d1 d2)
    (hy : d1.year = d2.year) (hm : d1.month = d2.month) :
    dailyMax [(d1, 3), (d1, 5), (d2, 1)] = [(d1, 5), (d2, 1)] ∧
    monthly_mean_of_daily_max [(d1, 3), (d1, 5), (d2, 1)] =
      [((d1.year, d1.month), 3)] := by
  have hne : d1 ≠ d2 := by
    intro h; subst h; unfold dateLt at hlt; omega
  have hle : dateLe d1 d2 := by
    unfold dateLt at hlt; unfold dateLe; omega
  have hkeys :
      ((([(d1, (3:ℚ)), (d1, 5), (d2, 1)]).map Prod.fst).dedup) = [d1, d2] := by
    simp only [List.map_cons, List.map_nil]
    rw [List.dedup_cons_of_mem (by simp),
      List.dedup_cons_of_not_mem (by simp [hne]),
      List.dedup_cons_of_not_mem (by simp), List.dedup_nil]
  have hsort : List.insertionSort dateLe [d1, d2] = [d1, d2] := by
    simp only [List.insertionSort, List.orderedInsert]
    rw [if_pos hle]
  have hf1 : ([(d1, (3:ℚ)), (d1, 5), (d2, 1)]).filter
      (fun r => r.1 = d1) = [(d1, 3), (d1, 5)] := by
    simp [List.filter_cons, hne.symm]
  have hf2 : ([(d1, (3:ℚ)), (d1, 5), (d2, 1)]).filter
      (fun r => r.1 = d2) = [(d2, 1)] := by
    simp [List.filter_cons, hne]
  have hdm : dailyMax [(d1, 3), (d1, 5), (d2, 1)] = [(d1, 5), (d2, 1)] := by
    unfold dailyMax
    rw [hkeys, hsort]
    simp only [List.map_cons, List.map_nil]
    rw [hf1, hf2]
    norm_num [maxQ]
  refine ⟨hdm, ?_⟩
  unfold monthly_mean_of_daily_max
  rw [hdm]
  simp only [List.map_cons, List.map_nil, ← hy, ← hm]
  rw [List.dedup_cons_of_mem (by simp), List.dedup_cons_of_not_mem (by simp),
    List.dedup_nil]
  simp only [List.insertionSort, List.orderedInsert]
  simp only [List.filter_cons, List.filter_nil, ← hy, ← hm]
  norm_num [meanQ]

/-- C4: the two-stage temporal reduction is invariant under any permutation
of the input readings, and the daily max at each date is the maximum over
exactly the readings sharing that date. -/
theorem uv_reduction_order_free :
    (∀ l₁ l₂ : List (Date × ℚ), l₁.Perm l₂ →
      dailyMax l₁ = dailyMax l₂ ∧
      monthly_mean_of_daily_max l₁ = monthly_mean_of_daily_max l₂) ∧
    (∀ (l : List (Date × ℚ)) (d : Date), d ∈ l.map Prod.fst →
      ∃ v, (d, v) ∈ dailyMax l ∧
        v ∈ (l.filter (fun r => r.1 = d)).map Prod.snd ∧
        ∀ w ∈ (l.filter (fun r => r.1 = d)).map Prod.snd, w ≤ v) := by
  constructor
  · intro l₁ l₂ p
    have hdm : dailyMax l₁ = dailyMax l₂ := by
      have hperm : ((l₁.map Prod.fst).dedup).Perm ((l₂.map Prod.fst).dedup) :=
        (p.map Prod.fst).dedup
      have hkeys : List.insertionSort dateLe ((l₁.map Prod.fst).dedup) =
          List.insertionSort dateLe ((l₂.map Prod.fst).dedup) :=
        List.eq_of_perm_of_sorted
          (((List.perm_insertionSort dateLe _).trans hperm).trans
            (List.perm_insertionSort dateLe _).symm)
          (List.sorted_insertionSort dateLe _)
          (List.sorted_insertionSort dateLe _)
      have hfun : (fun d => (d, maxQ
            ((l₁.filter (fun r => r.1 = d)).map Prod.snd))) =
          (fun d => (d, maxQ
            ((l₂.filter (fun r => r.1 = d)).map Prod.snd))) := by
        funext d
        rw [maxQ_perm ((p.filter (fun r => r.1 = d)).map Prod.snd)]
      unfold dailyMax
      rw [hkeys, hfun]
    refine ⟨hdm, ?_⟩
    unfold monthly_mean_of_daily_max
    rw [hdm]
  · intro l d hd
    rcases List.mem_map.mp hd with ⟨r, hr, hrd⟩
    have hrf : r ∈ l.filter (fun s => s.1 = d) :=
      List.mem_filter.mpr ⟨hr, by simp [hrd]⟩
    have hne : (l.filter (fun s => s.1 = d)).map Prod.snd ≠ [] := by
      intro h
      rw [List.map_eq_nil_iff] at h
      rw [h] at hrf
      cases hrf
    refine ⟨maxQ ((l.filter (fun s => s.1 = d)).map Prod.snd), ?_, maxQ_mem hne,
      fun w hw => le_maxQ hw⟩
    unfold dailyMax
    refine List.mem_map.mpr ⟨d, ?_, rfl⟩
    rw [List.mem_insertionSort, List.mem_dedup]
    exact hd

/-- Witness for C4 at a concrete permutation and date. -/
theorem uv_reduction_order_free_witness :
    dailyMax [(⟨2022,1,1⟩, 3), (⟨2022,1,2⟩, 1)] =
      dailyMax [(⟨2022,1,2⟩, 1), (⟨2022,1,1⟩, 3)] :=
  (uv_reduction_order_free.1 _ _ (List.Perm.swap _ _ _)).1

/-- Witness for C1 at two concrete January 2022 dates. -/
theorem uv_monthly_scenario_witness :
    dailyMax [(⟨2022,1,1⟩, 3), (⟨2022,1,1⟩, 5), (⟨2022,1,2⟩, 1)] =
      [(⟨2022,1,1⟩, 5), (⟨2022,1,2⟩, 1)] ∧
    monthly_mean_of_daily_max
        [(⟨2022,1,1⟩, 3), (⟨2022,1,1⟩, 5), (⟨2022,1,2⟩, 1)] =
      [((2022, 1), 3)] :=
  uv_monthly_scenario ⟨2022,1,1⟩ ⟨2022,1,2⟩ (by decide) rfl rfl

/-- C5: the source reader keeps exactly the rows whose timestamp parsed and
whose value parsed into `[0, 25]`, and outputs the value unchanged (never
clamped). -/
theorem parse_uv_csv_rows_kept :
    ∀ (raw : List (Option Date × Option ℚ)) (d : Date) (v : ℚ),
      (d, v) ∈ parse_uv_csv raw ↔
        ((some d, some v) ∈ raw ∧ 0 ≤ v ∧ v ≤ 25) := by
  intro raw d v
  unfold parse_uv_csv
  rw [List.mem_filter, List.mem_filterMap]
  constructor
  · rintro ⟨⟨a, ha, hfa⟩, hrange⟩
    obtain ⟨od, ov⟩ := a
    cases od with
    | none => simp at hfa
    | some d0 =>
      cases ov with
      | none => simp at hfa
      | some v0 =>
        simp only [Option.some.injEq, Prod.mk.injEq] at hfa
        obtain ⟨h1, h2⟩ := hfa
        subst h1; subst h2
        refine ⟨ha, ?_⟩
        simpa using hrange
  · rintro ⟨hmem, h0, h25⟩
    exact ⟨⟨(some d, some v), hmem, rfl⟩, by simp [h0, h25]⟩

/-- Witness for C5: a concrete in-range row is kept. -/
theorem parse_uv_csv_rows_kept_witness :
    (⟨2022,1,1⟩, (5:ℚ)) ∈ parse_uv_csv
      [(some ⟨2022,1,1⟩, some 5), (none, some 3),
       (some ⟨2022,1,2⟩, none), (some ⟨2022,1,3⟩, some 30)] :=
  (parse_uv_csv_rows_kept _ _ _).mpr ⟨by simp, by norm_num, by norm_num⟩

theorem firstMax_eq_none_iff (l : List (Int × ℚ)) :
    firstMax l = none ↔ l = [] := by
  cases l with
  | nil => simp [firstMax]
  | cons p rest =>
    simp only [firstMax]
    cases firstMax rest with
    | none => simp
    | some q =>
      by_cases h : p.2 < q.2 <;> simp [h]

theorem firstMax_spec :
    ∀ (l : List (Int × ℚ)), l.Pairwise (fun a b => a.1 < b.1) →
    ∀ m v, firstMax l = some (m, v) →
      (m, v) ∈ l ∧ (∀ p ∈ l, p.2 ≤ v) ∧ (∀ p ∈ l, p.2 = v → m ≤ p.1) := by
  intro l
  induction l with
  | nil => intro _ m v h; cases h
  | cons a rest ih =>
    intro hp m v h
    obtain ⟨hfst, hrestp⟩ := List.pairwise_cons.mp hp
    cases hrest : firstMax rest with
    | none =>
      have hrnil : rest = [] := (firstMax_eq_none_iff rest).mp hrest
      subst hrnil
      have h2 : some a = some (m, v) := by rw [firstMax] at h; exact h
      injection h2 with h2
      refine ⟨?_, ?_, ?_⟩
      · rw [h2] at *
        simp
      · intro p hl
        rcases List.mem_singleton.mp hl with rfl
        rw [h2]
      · intro p hl _
        rcases List.mem_singleton.mp hl with rfl
        rw [h2]
    | some q =>
      have h2 : (if a.2 < q.2 then some q else some a) = some (m, v) := by
        rw [firstMax, hrest] at h
        exact h
      obtain ⟨hqmem, hqmax, hqtie⟩ := ih hrestp q.1 q.2 (by rw [hrest])
      by_cases hlt : a.2 < q.2
      · rw [if_pos hlt] at h2
        injection h2 with h2
        subst h2
        refine ⟨List.mem_cons_of_mem a hqmem, ?_, ?_⟩
        · intro p hl
          rcases List.mem_cons.mp hl with rfl | hl
          · exact le_of_lt hlt
          · exact hqmax p hl
        · intro p hl hpv
          rcases List.mem_cons.mp hl with rfl | hl
          · exact absurd hpv (ne_of_lt hlt)
          · exact hqtie p hl hpv
      · rw [if_neg hlt] at h2
        injection h2 with h2
        subst h2
        push_neg at hlt
        refine ⟨List.mem_cons_self _ _, ?_, ?_⟩
        · intro p hl
          rcases List.mem_cons.mp hl with rfl | hl
          · exact le_refl _
          · exact (hqmax p hl).trans hlt
        · intro p hl _
          rcases List.mem_cons.mp hl with rfl | hl
          · exact le_refl _
          · exact le_of_lt (hfst p hl)

theorem climForCity_months_pairwise (rows : List MRow) (c : String) :
    (climForCity rows c).Pairwise (fun a b => a.1 < b.1) := by
  unfold climForCity
  rw [List.pairwise_map]
  have hsorted :
      (List.insertionSort (· ≤ ·)
        (((rows.filter (fun r => r.city = c)).map MRow.month).dedup)).Pairwise
        (· ≤ ·) :=
    List.sorted_insertionSort _ _
  have hnodup :
      (List.insertionSort (· ≤ ·)
        (((rows.filter (fun r => r.city = c)).map MRow.month).dedup)).Nodup :=
    (List.perm_insertionSort _ _).symm.nodup
      (List.nodup_dedup _)
  exact (hsorted.and hnodup).imp (fun h => lt_of_le_of_ne h.1 h.2)

theorem filter_key_ne_nil {α β : Type} [DecidableEq β] (f : α → β)
    (l : List α) (d : β) (hd : d ∈ l.map f) :
    l.filter (fun r => f r = d) ≠ [] := by
  rcases List.mem_map.mp hd with ⟨r, hr, hrd⟩
  intro h
  have hm : r ∈ l.filter (fun r => f r = d) :=
    List.mem_filter.mpr ⟨hr, by simp [hrd]⟩
  rw [h] at hm
  cases hm

theorem climForCity_ne_nil {rows : List MRow} {c : String}
    (hc : c ∈ climCities rows) : climForCity rows c ≠ [] := by
  unfold climCities at hc
  rw [List.mem_insertionSort, List.mem_dedup] at hc
  have hsub : rows.filter (fun r => r.city = c) ≠ [] :=
    filter_key_ne_nil MRow.city rows c hc
  unfold climForCity
  intro hnil
  rw [List.map_eq_nil_iff] at hnil
  have : ((rows.filter (fun r => r.city = c)).map MRow.month).dedup = [] := by
    have hp := List.perm_insertionSort (α := Int) (· ≤ ·)
      (((rows.filter (fun r => r.city = c)).map MRow.month).dedup)
    rw [hnil] at hp
    exact (hp.symm.eq_nil)
  rw [List.dedup_eq_nil, List.map_eq_nil_iff] at this
  exact hsub this

/-- C3: every city of the climatology table has a peak row; its value is
the maximum climatology value of that city and its month is the lowest
month among those attaining that maximum (stable argmax, ties broken by
the lowest month number). -/
theorem peak_month_stable_argmax :
    ∀ (rows : List MRow) (c : String),
      (c ∈ climCities rows → (peak rows c).isSome = true) ∧
      (∀ m v, peak rows c = some (m, v) →
        (m, v) ∈ climForCity rows c ∧
        (∀ p ∈ climForCity rows c, p.2 ≤ v) ∧
        (∀ p ∈ climForCity rows c, p.2 = v → m ≤ p.1)) := by
  intro rows c
  constructor
  · intro hc
    rw [Option.isSome_iff_ne_none]
    intro hnone
    exact climForCity_ne_nil hc ((firstMax_eq_none_iff _).mp hnone)
  · intro m v h
    exact firstMax_spec _ (climForCity_months_pairwise rows c) m v h

/-- Witness for C3: months 1 and 2 tie at the maximum 7; month 1 wins. -/
theorem peak_month_stable_argmax_witness :
    ((1 : Int), (7 : ℚ)) ∈
        climForCity [⟨"Syd", 2022, 2, 7⟩, ⟨"Syd", 2022, 1, 7⟩,
          ⟨"Syd", 2022, 3, 4⟩] "Syd" ∧
      (∀ p ∈ climForCity [⟨"Syd", 2022, 2, 7⟩, ⟨"Syd", 2022, 1, 7⟩,
          ⟨"Syd", 2022, 3, 4⟩] "Syd", p.2 ≤ (7 : ℚ)) ∧
      (∀ p ∈ climForCity [⟨"Syd", 2022, 2, 7⟩, ⟨"Syd", 2022, 1, 7⟩,
          ⟨"Syd", 2022, 3, 4⟩] "Syd", p.2 = (7 : ℚ) → (1 : Int) ≤ p.1) :=
  (peak_month_stable_argmax _ "Syd").2 1 7 (by
    simp [peak, firstMax, climForCity, meanQ, List.insertionSort,
      List.orderedInsert, List.dedup, List.pwFilter, List.filter]
    norm_num)

theorem parse_uv_csv_bounds (raw : List (Option Date × Option ℚ)) :
    ∀ r ∈ parse_uv_csv raw, 0 ≤ r.2 ∧ r.2 ≤ 25 := by
  intro r hr
  unfold parse_uv_csv at hr
  have := List.mem_filter.mp hr |>.2
  simpa using this

theorem dailyMax_bounds {l : List (Date × ℚ)} {a b : ℚ}
    (h : ∀ r ∈ l, a ≤ r.2 ∧ r.2 ≤ b) :
    ∀ p ∈ dailyMax l, a ≤ p.2 ∧ p.2 ≤ b := by
  intro p hp
  unfold dailyMax at hp
  rcases List.mem_map.mp hp with ⟨d, hd, rfl⟩
  rw [List.mem_insertionSort, List.mem_dedup] at hd
  have hne : (l.filter (fun r => r.1 = d)).map Prod.snd ≠ [] := by
    intro hnil
    exact filter_key_ne_nil Prod.fst l d hd (List.map_eq_nil_iff.mp hnil)
  rcases List.mem_map.mp (maxQ_mem hne) with ⟨r, hrf, hrv⟩
  have hrl := (List.mem_filter.mp hrf).1
  have hgoal : a ≤ maxQ ((l.filter (fun r => r.1 = d)).map Prod.snd) ∧
      maxQ ((l.filter (fun r => r.1 = d)).map Prod.snd) ≤ b := by
    rw [← hrv]
    exact h r hrl
  exact hgoal

theorem monthly_mean_bounds {l : List (Date × ℚ)} {a b : ℚ}
    (h : ∀ r ∈ l, a ≤ r.2 ∧ r.2 ≤ b) :
    ∀ p ∈ monthly_mean_of_daily_max l, a ≤ p.2 ∧ p.2 ≤ b := by
  intro p hp
  unfold monthly_mean_of_daily_max at hp
  rcases List.mem_map.mp hp with ⟨ym, hym, rfl⟩
  rw [List.mem_insertionSort, List.mem_dedup] at hym
  have hdb := dailyMax_bounds h
  have hne : ((dailyMax l).filter
      (fun r => (r.1.year, r.1.month) = ym)).map Prod.snd ≠ [] := by
    intro hnil
    exact filter_key_ne_nil (fun r => (r.1.year, r.1.month)) (dailyMax l) ym
      hym (List.map_eq_nil_iff.mp hnil)
  have hvals : ∀ x ∈ ((dailyMax l).filter
      (fun r => (r.1.year, r.1.month) = ym)).map Prod.snd,
      a ≤ x ∧ x ≤ b := by
    intro x hx
    rcases List.mem_map.mp hx with ⟨r, hrf, rfl⟩
    exact hdb r (List.mem_filter.mp hrf).1
  exact meanQ_bounds hne hvals

theorem climForCity_bounds {rows : List MRow} {a b : ℚ} (c : String)
    (h : ∀ r ∈ rows, a ≤ r.value ∧ r.value ≤ b) :
    ∀ mv ∈ climForCity rows c, a ≤ mv.2 ∧ mv.2 ≤ b := by
  intro mv hmv
  unfold climForCity at hmv
  rcases List.mem_map.mp hmv with ⟨m, hm, rfl⟩
  rw [List.mem_insertionSort, List.mem_dedup] at hm
  have hne : (((rows.filter (fun r => r.city = c)).filter
      (fun r => r.month = m)).map MRow.value) ≠ [] := by
    intro hnil
    exact filter_key_ne_nil MRow.month (rows.filter (fun r => r.city = c)) m
      hm (List.map_eq_nil_iff.mp hnil)
  have hvals : ∀ x ∈ ((rows.filter (fun r => r.city = c)).filter
      (fun r => r.month = m)).map MRow.value, a ≤ x ∧ x ≤ b := by
    intro x hx
    rcases List.mem_map.mp hx with ⟨r, hrf, rfl⟩
    exact h r (List.mem_filter.mp (List.mem_filter.mp hrf).1).1
  exact meanQ_bounds hne hvals

/-- C10: every numeric value the UV pipeline produces — daily maxima,
monthly means, climatology values, annual means and peak values — lies in
`[0, 25]`, because the source reader admits only such values and every
later stage is a max or an arithmetic mean of earlier values. -/
theorem uv_pipeline_values_in_range :
    ∀ (inputs : List (String × List (Option Date × Option ℚ))),
      (∀ ci ∈ inputs, ∀ p ∈ dailyMax (parse_uv_csv ci.2),
        0 ≤ p.2 ∧ p.2 ≤ 25) ∧
      (∀ r ∈ uv_monthly_rows inputs, 0 ≤ r.value ∧ r.value ≤ 25) ∧
      (∀ t ∈ climatology (uv_monthly_rows inputs),
        0 ≤ t.2.2 ∧ t.2.2 ≤ 25) ∧
      (∀ c ∈ climCities (uv_monthly_rows inputs),
        (0 ≤ annual_mean (uv_monthly_rows inputs) c ∧
          annual_mean (uv_monthly_rows inputs) c ≤ 25) ∧
        (∀ m v, peak (uv_monthly_rows inputs) c = some (m, v) →
          0 ≤ v ∧ v ≤ 25)) := by
  intro inputs
  have hmrows : ∀ r ∈ uv_monthly_rows inputs, 0 ≤ r.value ∧ r.value ≤ 25 := by
    intro r hr
    unfold uv_monthly_rows at hr
    rcases List.mem_flatMap.mp hr with ⟨ci, _, hmem⟩
    rcases List.mem_map.mp hmem with ⟨p, hp, rfl⟩
    exact monthly_mean_bounds (parse_uv_csv_bounds ci.2) p hp
  refine ⟨?_, hmrows, ?_, ?_⟩
  · intro ci _ p hp
    exact dailyMax_bounds (parse_uv_csv_bounds ci.2) p hp
  · intro t ht
    unfold climatology at ht
    rcases List.mem_flatMap.mp ht with ⟨c, _, hmem⟩
    rcases List.mem_map.mp hmem with ⟨mv, hmv, rfl⟩
    exact climForCity_bounds c hmrows mv hmv
  · intro c hc
    constructor
    · have hne : (climForCity (uv_monthly_rows inputs) c).map Prod.snd ≠ [] := by
        intro h
        exact climForCity_ne_nil hc (List.map_eq_nil_iff.mp h)
      refine meanQ_bounds hne ?_
      intro x hx
      rcases List.mem_map.mp hx with ⟨mv, hmv, rfl⟩
      exact climForCity_bounds c hmrows mv hmv
    · intro m v hpk
      have hspec := firstMax_spec _
        (climForCity_months_pairwise (uv_monthly_rows inputs) c) m v hpk
      exact climForCity_bounds c hmrows (m, v) hspec.1

/-- Witness for C10 on a one-reading input. -/
theorem uv_pipeline_values_in_range_witness :
    0 ≤ (MRow.mk "Syd" 2022 1 5).value ∧ (MRow.mk "Syd" 2022 1 5).value ≤ 25 :=
  (uv_pipeline_values_in_range
      [("Syd", [(some ⟨2022,1,1⟩, some 5)])]).2.1
    (MRow.mk "Syd" 2022 1 5)
    (by
      simp [uv_monthly_rows, monthly_mean_of_daily_max, dailyMax,
        parse_uv_csv, meanQ, maxQ, List.insertionSort, List.orderedInsert,
        List.dedup, List.pwFilter, List.filter, List.filterMap]
      norm_num)

theorem invLookup_eq_none_iff (cols : List String) (key : String) :
    invLookup cols key = none ↔ ∀ c ∈ cols, colNorm c ≠ key := by
  unfold invLookup
  rw [List.getLast?_eq_none_iff, List.filter_eq_nil_iff]
  constructor
  · intro h c hc
    have := h c hc
    simpa using this
  · intro h c hc
    simpa using h c hc

theorem findByCandidates_eq_none_iff (cands cols : List String) :
    findByCandidates cands cols = none ↔
      ∀ c ∈ cols, colNorm c ∉ cands := by
  induction cands with
  | nil => simp [findByCandidates]
  | cons k rest ih =>
    rw [findByCandidates]
    cases hl : invLookup cols k with
    | some c =>
      constructor
      · intro h; cases h
      · intro hall
        exfalso
        have hnone : invLookup cols k = none :=
          (invLookup_eq_none_iff cols k).mpr (fun c2 hc2 => by
            have := hall c2 hc2
            simp only [List.mem_cons] at this
            push_neg at this
            exact this.1)
        rw [hnone] at hl
        cases hl
    | none =>
      rw [ih]
      constructor
      · intro h c hc
        have hk := (invLookup_eq_none_iff cols k).mp hl c hc
        have hrest := h c hc
        simp only [List.mem_cons]
        push_neg
        exact ⟨hk, hrest⟩
      · intro h c hc
        have := h c hc
        simp only [List.mem_cons] at this
        push_neg at this
        exact this.2

theorem find?_first_spec {α : Type} (p : α → Bool) :
    ∀ (l : List α) (c : α), l.find? p = some c →
      p c = true ∧ ∃ i, ∃ hi : i < l.length, l.get ⟨i, hi⟩ = c ∧
        ∀ j, ∀ hj : j < l.length, j < i → p (l.get ⟨j, hj⟩) = false := by
  intro l
  induction l with
  | nil => intro c h; cases h
  | cons a l ih =>
    intro c h
    by_cases hpa : p a = true
    · rw [List.find?_cons_of_pos l hpa] at h
      injection h with h
      subst h
      refine ⟨hpa, 0, Nat.succ_pos _, rfl, ?_⟩
      intro j hj hj0
      exact absurd hj0 (Nat.not_lt_zero j)
    · rw [List.find?_cons_of_neg l hpa] at h
      obtain ⟨hpc, i, hi, hget, hearlier⟩ := ih c h
      refine ⟨hpc, i + 1, Nat.succ_lt_succ hi, hget, ?_⟩
      intro j hj hji
      cases j with
      | zero => exact Bool.eq_false_iff.mpr hpa
      | succ j0 =>
        exact hearlier j0 (Nat.lt_of_succ_lt_succ hj)
          (Nat.lt_of_succ_lt_succ hji)

theorem uvColumn_eq_none_iff (cols : List String) :
    uvColumn cols = none ↔
      (∀ c ∈ cols, colNorm c ∉ uvCandidates) ∧
      (∀ c ∈ cols, startsWithB "uv" (colNorm c) = false) := by
  unfold uvColumn
  cases hf : findByCandidates uvCandidates cols with
  | some c =>
    constructor
    · intro h; cases h
    · intro ⟨h1, _⟩
      exfalso
      rw [(findByCandidates_eq_none_iff uvCandidates cols).mpr h1] at hf
      cases hf
  | none =>
    rw [List.find?_eq_none]
    constructor
    · intro h
      refine ⟨(findByCandidates_eq_none_iff uvCandidates cols).mp hf, ?_⟩
      intro c hc
      exact Bool.eq_false_iff.mpr (h c hc)
    · intro ⟨_, h2⟩ c hc
      rw [h2 c hc]
      simp

theorem timeColumn_eq_none_iff (cols : List String) :
    timeColumn cols = none ↔
      (∀ c ∈ cols, colNorm c ∉ timeCandidates) ∧
      (∀ c ∈ cols, (containsSub "time" (colNorm c) ||
        containsSub "date" (colNorm c)) = false) := by
  unfold timeColumn
  cases hf : findByCandidates timeCandidates cols with
  | some c =>
    constructor
    · intro h; cases h
    · intro ⟨h1, _⟩
      exfalso
      rw [(findByCandidates_eq_none_iff timeCandidates cols).mpr h1] at hf
      cases hf
  | none =>
    rw [List.find?_eq_none]
    constructor
    · intro h
      refine ⟨(findByCandidates_eq_none_iff timeCandidates cols).mp hf, ?_⟩
      intro c hc
      exact Bool.eq_false_iff.mpr (h c hc)
    · intro ⟨_, h2⟩ c hc
      rw [h2 c hc]
      simp

/-- C6 counterexample: with columns `["xuv", "Timestamp"]` the normalized
name `"xuv"` CONTAINS `"uv"` and the timestamp column resolves, yet the
reader raises (the fallback requires the name to START WITH `"uv"`). -/
theorem source_reader_fallback_counterexample :
    resolveColumns ["xuv", "Timestamp"] = none ∧
    containsSub "uv" (colNorm "xuv") = true ∧
    timeColumn ["xuv", "Timestamp"] = some "Timestamp" := by decide

/-- C6 (amended): column resolution searches the prioritized candidate
list; if no exact candidate matches, the value column falls back to the
first column whose normalized name STARTS WITH `"uv"` (not merely
contains it), the timestamp column to the first whose normalized name
contains `"time"` or `"date"`; the reader errors iff one of the two
columns is resolvable by neither rule. -/
theorem source_reader_column_resolution :
    ∀ cols : List String,
      (resolveColumns cols = none ↔
        uvColumn cols = none ∨ timeColumn cols = none) ∧
      (uvColumn cols = none ↔
        (∀ c ∈ cols, colNorm c ∉ uvCandidates) ∧
        (∀ c ∈ cols, startsWithB "uv" (colNorm c) = false)) ∧
      (timeColumn cols = none ↔
        (∀ c ∈ cols, colNorm c ∉ timeCandidates) ∧
        (∀ c ∈ cols, (containsSub "time" (colNorm c) ||
          containsSub "date" (colNorm c)) = false)) ∧
      ((∀ c ∈ cols, colNorm c ∉ uvCandidates) →
        ∀ c0, uvColumn cols = some c0 →
          startsWithB "uv" (colNorm c0) = true ∧
          ∃ i, ∃ hi : i < cols.length, cols.get ⟨i, hi⟩ = c0 ∧
            ∀ j, ∀ hj : j < cols.length, j < i →
              startsWithB "uv" (colNorm (cols.get ⟨j, hj⟩)) = false) := by
  intro cols
  refine ⟨?_, uvColumn_eq_none_iff cols, timeColumn_eq_none_iff cols, ?_⟩
  · unfold resolveColumns
    cases uvColumn cols <;> cases timeColumn cols <;> simp
  · intro hno c0 h
    unfold uvColumn at h
    rw [(findByCandidates_eq_none_iff uvCandidates cols).mpr hno] at h
    exact find?_first_spec _ cols c0 h

/-- Witness for C6 (amended) at a concrete header list. -/
theorem source_reader_column_resolution_witness :
    startsWithB "uv" (colNorm "UV Col") = true ∧
    ∃ i, ∃ hi : i < (["Lat", "UV Col", "Date"] : List String).length,
      (["Lat", "UV Col", "Date"] : List String).get ⟨i, hi⟩ = "UV Col" ∧
      ∀ j, ∀ hj : j < (["Lat", "UV Col", "Date"] : List String).length,
        j < i → startsWithB "uv"
          (colNorm ((["Lat", "UV Col", "Date"] : List String).get ⟨j, hj⟩)) =
            false :=
  (source_reader_column_resolution ["Lat", "UV Col", "Date"]).2.2.2
    (by decide) "UV Col" (by decide)

theorem filter_head?_eq_find? {α : Type} (p : α → Bool) (l : List α) :
    (l.filter p).head? = l.find? p := by
  induction l with
  | nil => rfl
  | cons a l ih =>
    by_cases hpa : p a = true
    · rw [List.filter_cons_of_pos hpa, List.find?_cons_of_pos l hpa]
      rfl
    · rw [List.filter_cons_of_neg (by simpa using hpa),
        List.find?_cons_of_neg l hpa]
      exact ih

/-- C7: for a configured standard (`"2001"` or `"2025"`), the rate column
lookup fails iff no header contains both the label substring
`"Age-standardised rate"` and the year token; otherwise the first such
header (in column order) is selected. -/
theorem rate_column_selection :
    ∀ (cols : List String) (std : String), std = "2001" ∨ std = "2025" →
      (findRateCol cols std = none ↔
        ∀ c ∈ cols, ¬(containsSub "Age-standardised rate" c = true ∧
          containsSub std c = true)) ∧
      (∀ c0, findRateCol cols std = some c0 →
        containsSub "Age-standardised rate" c0 = true ∧
        containsSub std c0 = true ∧
        ∃ i, ∃ hi : i < cols.length, cols.get ⟨i, hi⟩ = c0 ∧
          ∀ j, ∀ hj : j < cols.length, j < i →
            ¬(containsSub "Age-standardised rate" (cols.get ⟨j, hj⟩) = true ∧
              containsSub std (cols.get ⟨j, hj⟩) = true)) := by
  intro cols std hstd
  have hred : findRateCol cols std = cols.find? (fun c =>
      containsSub "Age-standardised rate" c && containsSub std c) := by
    rcases hstd with h | h <;> subst h
    · unfold findRateCol rateColCandidates
      rw [if_neg (by decide)]
      exact filter_head?_eq_find? _ cols
    · unfold findRateCol rateColCandidates
      rw [if_pos rfl]
      exact filter_head?_eq_find? _ cols
  rw [hred]
  constructor
  · rw [List.find?_eq_none]
    constructor
    · intro h c hc
      have := h c hc
      simpa [Bool.and_eq_true] using this
    · intro h c hc
      simpa [Bool.and_eq_true] using h c hc
  · intro c0 h
    obtain ⟨hp, i, hi, hget, hearlier⟩ := find?_first_spec _ cols c0 h
    rw [Bool.and_eq_true] at hp
    refine ⟨hp.1, hp.2, i, hi, hget, ?_⟩
    intro j hj hji
    have := hearlier j hj hji
    simpa [Bool.and_eq_true] using this

/-- Witness for C7 at a concrete header list and the `"2001"` standard. -/
theorem rate_column_selection_witness :
    findRateCol ["Count", "Age-standardised rate 2001 (per 100,000)"]
        "2001" = none ↔
      ∀ c ∈ (["Count", "Age-standardised rate 2001 (per 100,000)"] :
          List String),
        ¬(containsSub "Age-standardised rate" c = true ∧
          containsSub "2001" c = true) :=
  (rate_column_selection ["Count", "Age-standardised rate 2001 (per 100,000)"]
    "2001" (Or.inl rfl)).1

theorem keepRow_eq_true_iff (b : BRow) :
    keepRow b = true ↔
      b.dataType = "Incidence" ∧ b.site = "Melanoma of the skin" ∧
      b.sex = "Persons" ∧
      (∃ y, b.yearRaw = some y ∧ 2017 ≤ y ∧ y ≤ 2021) ∧
      b.stateName ≠ "Australia" := by
  unfold keepRow
  cases hy : b.yearRaw with
  | none => simp [hy]
  | some y =>
    simp only [hy, Bool.and_eq_true, Bool.not_eq_true', decide_eq_true_eq,
      decide_eq_false_iff_not, Option.some.injEq]
    constructor
    · rintro ⟨⟨⟨⟨h1, h2⟩, h3⟩, ⟨h4, h5⟩⟩, h6⟩
      exact ⟨h1, h2, h3, ⟨y, rfl, h4, h5⟩, h6⟩
    · rintro ⟨h1, h2, h3, ⟨y2, hy2, h4, h5⟩, h6⟩
      cases hy2
      exact ⟨⟨⟨⟨h1, h2⟩, h3⟩, ⟨h4, h5⟩⟩, h6⟩

/-- C8: the `yearly` output holds exactly the projections of the input
rows passing the melanoma-incidence-persons filter with period in
`[2017, 2021]` and region name other than `"Australia"`, and it is
sorted by `(state_code, year)` (missing codes last). -/
theorem book7_yearly_rows :
    ∀ rows : List BRow,
      (∀ s, s ∈ read_book7_yearly rows ↔
        ∃ b ∈ rows, b.dataType = "Incidence" ∧
          b.site = "Melanoma of the skin" ∧ b.sex = "Persons" ∧
          (∃ y, b.yearRaw = some y ∧ 2017 ≤ y ∧ y ≤ 2021) ∧
          b.stateName ≠ "Australia" ∧ s = toSRec b) ∧
      (read_book7_yearly rows).Pairwise recLe ∧
      (read_book7_yearly rows).Perm ((rows.filter keepRow).map toSRec) := by
  intro rows
  refine ⟨?_, List.sorted_insertionSort recLe _, List.perm_insertionSort recLe _⟩
  intro s
  unfold read_book7_yearly
  rw [List.mem_insertionSort, List.mem_map]
  constructor
  · rintro ⟨b, hb, rfl⟩
    obtain ⟨hbl, hkeep⟩ := List.mem_filter.mp hb
    obtain ⟨h1, h2, h3, h4, h5⟩ := (keepRow_eq_true_iff b).mp hkeep
    exact ⟨b, hbl, h1, h2, h3, h4, h5, rfl⟩
  · rintro ⟨b, hbl, h1, h2, h3, h4, h5, rfl⟩
    exact ⟨b, List.mem_filter.mpr
      ⟨hbl, (keepRow_eq_true_iff b).mpr ⟨h1, h2, h3, h4, h5⟩⟩, rfl⟩

/-- Witness for C8: a concrete qualifying row appears in the output. -/
theorem book7_yearly_rows_witness :
    toSRec ⟨"Incidence", "Melanoma of the skin", "Persons", some 2018,
        "Victoria", some 10, some 5⟩ ∈
      read_book7_yearly [⟨"Incidence", "Melanoma of the skin", "Persons",
        some 2018, "Victoria", some 10, some 5⟩] :=
  ((book7_yearly_rows [⟨"Incidence", "Melanoma of the skin", "Persons",
      some 2018, "Victoria", some 10, some 5⟩]).1 _).mpr
    ⟨⟨"Incidence", "Melanoma of the skin", "Persons", some 2018,
        "Victoria", some 10, some 5⟩,
      by simp, rfl, rfl, rfl, ⟨2018, rfl, by decide, by decide⟩,
      by decide, rfl⟩

/-- C9: a region code appears in the scatter output iff it appears in
both join inputs (inner join). -/
theorem scatter_inner_join :
    ∀ (left : List URow) (right : List RSum) (c : String),
      (∃ s ∈ scatter left right, s.1 = c) ↔
        ((∃ a ∈ left, a.state_code = c) ∧
          (∃ b ∈ right, b.state_code = some c)) := by
  intro left right c
  constructor
  · rintro ⟨s, hs, hsc⟩
    unfold scatter at hs
    rcases List.mem_map.mp hs with ⟨p, hab, rfl⟩
    unfold scatterJoin at hab
    rcases List.mem_flatMap.mp hab with ⟨a, ha, hmem⟩
    rcases List.mem_map.mp hmem with ⟨b, hb2, rfl⟩
    obtain ⟨hbr, hbkey⟩ := List.mem_filter.mp hb2
    have hkey : b.state_code = some a.state_code := by simpa using hbkey
    have hac : a.state_code = c := hsc
    exact ⟨⟨a, ha, hac⟩, b, hbr, by rw [hkey, hac]⟩
  · rintro ⟨⟨a, ha, rfl⟩, b, hb, hbc⟩
    refine ⟨(a.state_code, a.state_name, a.annual_mean_uvi,
      b.asr_2017_2021_mean, b.count_sum), ?_, rfl⟩
    unfold scatter
    refine List.mem_map.mpr ⟨(a, b), ?_, rfl⟩
    unfold scatterJoin
    refine List.mem_flatMap.mpr ⟨a, ha, ?_⟩
    exact List.mem_map.mpr ⟨b, List.mem_filter.mpr ⟨hb, by simp [hbc]⟩, rfl⟩

/-- Witness for C9 at concrete one-row inputs. -/
theorem scatter_inner_join_witness :
    (∃ a ∈ [URow.mk "VIC" "Victoria" 10], a.state_code = "VIC") ∧
      (∃ b ∈ [RSum.mk (some "VIC") 15 20], b.state_code = some "VIC") :=
  (scatter_inner_join [URow.mk "VIC" "Victoria" 10]
      [RSum.mk (some "VIC") 15 20] "VIC").mp
    ⟨("VIC", "Victoria", 10, 15, 20), by decide, rfl⟩

/-- C2 counterexample: two left rows share the key `"VIC"`; the join
silently emits one row per matching pair (a within-key cross join) and
nothing fails — the script defines no `DuplicateKeyError` and `merge`
is called without any cardinality validation. -/
theorem join_duplicate_key_counterexample :
    scatter [URow.mk "VIC" "Victoria" 10, URow.mk "VIC" "Victoria" 11]
        [RSum.mk (some "VIC") 15 20] =
      [("VIC", "Victoria", 10, 15, 20), ("VIC", "Victoria", 11, 15, 20)] := by
  decide

/-- C2 (amended): on duplicate keys the join never fails; its output
holds exactly one row per (left, right) pair agreeing on `region_code`
(silent within-key cross join). -/
theorem join_pairwise_semantics :
    ∀ (left : List URow) (right : List RSum) (a : URow) (b : RSum),
      (a, b) ∈ scatterJoin left right ↔
        (a ∈ left ∧ b ∈ right ∧ b.state_code = some a.state_code) := by
  intro left right a b
  unfold scatterJoin
  constructor
  · intro h
    rcases List.mem_flatMap.mp h with ⟨a2, ha2, hmem⟩
    rcases List.mem_map.mp hmem with ⟨b2, hb2, heq⟩
    obtain ⟨hbr, hbkey⟩ := List.mem_filter.mp hb2
    rw [Prod.mk.injEq] at heq
    obtain ⟨rfl, rfl⟩ := heq
    exact ⟨ha2, hbr, by simpa using hbkey⟩
  · rintro ⟨ha, hb, hkey⟩
    refine List.mem_flatMap.mpr ⟨a, ha, ?_⟩
    exact List.mem_map.mpr ⟨b, List.mem_filter.mpr ⟨hb, by simp [hkey]⟩, rfl⟩

/-- Witness for C2 (amended): both cross-join pairs are present. -/
theorem join_pairwise_semantics_witness :
    (URow.mk "VIC" "Victoria" 11, RSum.mk (some "VIC") 15 20) ∈
      scatterJoin [URow.mk "VIC" "Victoria" 10, URow.mk "VIC" "Victoria" 11]
        [RSum.mk (some "VIC") 15 20] :=
  (join_pairwise_semantics _ _ _ _).mpr ⟨by decide, by decide, by decide⟩
